import Mathlib

/-!
Verification of the gear-shifting sequence generator (`shiftseq.py`) and the
closest-gear-combination calculator (`gearcombo.py`).

The Python modules fix two cog lists (front tooth counts and rear tooth
counts), precompute the dense table of gear ratios, and offer:

* `compute_combo` (gearcombo.py): scan all tooth-count combinations and keep
  the one minimising `ratio - front/rear` subject to that delta being
  non-negative and strictly below the running minimum (initialised to the
  sentinel 999999 with sentinel combination (0, 0));
* `find_next` (shiftseq.py): the single-step rule moving one grid coordinate
  one unit toward a goal coordinate, consulting the ratio table when both
  axes could move;
* `generate_shifts` (shiftseq.py): validate the ratio and the origin tooth
  counts, locate the origin and goal grid coordinates by a scan identical to
  `compute_combo`'s, and walk from origin to goal with `find_next`.

Python floats are modelled by exact rationals (ℚ); all tooth counts and the
sentinel are exactly representable and all table ratios are distinct, so the
comparisons carried out by the code coincide with the rational ones.
The unbounded `while` loop of `generate_shifts` is modelled with fuel; fuel 8
strictly dominates the grid diameter, and the development proves the walk
consumes exactly the Manhattan distance, so the fuel branch is never hit on
inputs the code can reach.  Python exceptions are modelled as `Except.error`
values with distinct messages: the invalid-ratio `ValueError`s, the
`UnboundLocalError` that `generate_shifts` actually hits while formatting its
invalid-origin messages (they read the scan-loop locals `front` / `rear`,
unassigned at that point), and the `TypeError` that unpacking a `None` goal
raises.
-/

/-- Front cog tooth counts (module constant `_FRONT_COGS`). -/
def frontCogs : List ℕ := [38, 30]

/-- Rear cog tooth counts (module constant `_REAR_COGS`). -/
def rearCogs : List ℕ := [28, 23, 19, 16]

/-- The precomputed table of gearing combinations as gear ratios
(module-level `_combos`): row `f`, column `r` holds `front[f] / rear[r]`. -/
def combosTable : List (List ℚ) :=
  frontCogs.map (fun front => rearCogs.map (fun rear => (front : ℚ) / (rear : ℚ)))

/-- Table lookup `_combos[y][x]` (total: out-of-range reads return junk 0;
the development shows in-range inputs only ever read in range). -/
def tableAt (y x : ℕ) : ℚ := (combosTable.getD y []).getD x 0

/-- One axis of `find_next`: step the current index one unit toward the final
index (increment if below, decrement if above, stay if equal). -/
def stepCoord (curr fin : ℕ) : ℕ :=
  if curr < fin then curr + 1
  else if fin < curr then curr - 1
  else curr

/-- `find_next( curr_y, curr_x, final_y, final_x )`: the next coordinate pair,
favouring (when both axes could move) the single-axis move whose resulting
ratio is smaller, the front-axis (y) move on ties. -/
def findNext (curr fin : ℕ × ℕ) : ℕ × ℕ :=
  let next_y := stepCoord curr.1 fin.1
  let next_x := stepCoord curr.2 fin.2
  if next_y ≠ curr.1 ∧ next_x ≠ curr.2 then
    let delta_x := tableAt curr.1 next_x
    let delta_y := tableAt next_y curr.2
    if delta_x < delta_y then (curr.1, next_x) else (next_y, curr.2)
  else (next_y, next_x)

/-- All (front, rear) tooth-count pairs in the enumeration order of the nested
loops of `compute_combo`: front ascending by index, then rear. -/
def comboPairs : List (ℕ × ℕ) :=
  frontCogs.flatMap (fun front => rearCogs.map (fun rear => (front, rear)))

/-- The ratio of a tooth-count pair. -/
def ratioOf (c : ℕ × ℕ) : ℚ := (c.1 : ℚ) / (c.2 : ℚ)

/-- One iteration of `compute_combo`'s scan: accept the pair when its delta is
non-negative and strictly below the running minimum. -/
def comboStep (ratio : ℚ) (acc : ℚ × (ℕ × ℕ)) (c : ℕ × ℕ) : ℚ × (ℕ × ℕ) :=
  let delta := ratio - ratioOf c
  if 0 ≤ delta ∧ delta < acc.1 then (delta, c) else acc

/-- `compute_combo( ratio )` of gearcombo.py: closest gearing combination not
exceeding the requested ratio, with sentinel state `(999999, (0,0))`. -/
def computeCombo (ratio : ℚ) : Except String (ℕ × ℕ) :=
  if ratio ≤ 0 then .error "Invalid gear ratio"
  else .ok (comboPairs.foldl (comboStep ratio) (999999, (0, 0))).2

/-- All grid coordinates (findex, rindex) in the enumeration order of the
nested loops of `generate_shifts`. -/
def indexPairs : List (ℕ × ℕ) :=
  (List.range frontCogs.length).flatMap
    (fun fi => (List.range rearCogs.length).map (fun ri => (fi, ri)))

/-- One iteration of the goal scan in `generate_shifts`: same acceptance test
as `comboStep`, tracking the candidate's grid coordinate. -/
def goalStep (ratio : ℚ) (acc : ℚ × Option (ℕ × ℕ)) (c : ℕ × ℕ) :
    ℚ × Option (ℕ × ℕ) :=
  let delta := ratio - tableAt c.1 c.2
  if 0 ≤ delta ∧ delta < acc.1 then (delta, some c) else acc

/-- The goal-coordinate scan of `generate_shifts`: `min_delta` starts at the
sentinel 999999 and `goal` starts unset (`None`). -/
def goalScan (ratio : ℚ) : ℚ × Option (ℕ × ℕ) :=
  indexPairs.foldl (goalStep ratio) (999999, none)

/-- The origin-coordinate scan of `generate_shifts`: record the coordinate
whose tooth counts equal the supplied initial gears. -/
def originScan (ifront irear : ℕ) : Option (ℕ × ℕ) :=
  indexPairs.foldl
    (fun acc c =>
      if frontCogs.getD c.1 0 = ifront ∧ rearCogs.getD c.2 0 = irear
      then some c else acc)
    none

/-- The `while combo != goal` loop of `generate_shifts`, fuelled: from the
current `combo`, keep applying `find_next` and appending until the goal is
reached.  Returns the list of coordinates appended after `combo`. -/
def shiftLoop (fuel : ℕ) (combo goal : ℕ × ℕ) : Option (List (ℕ × ℕ)) :=
  if combo = goal then some []
  else
    match fuel with
    | 0 => none
    | fuel + 1 =>
      let next := findNext combo goal
      (shiftLoop fuel next goal).map (fun rest => next :: rest)

/-- `generate_shifts( ratio, ifront, irear )` of shiftseq.py.  Validation
order follows the source: ratio first, then front membership, then rear
membership.  The invalid-origin branches intend to raise
`ValueError("Invalid front gear ...")` / `("Invalid rear gear ...")` but
format the message with `front` / `rear` — locals of the function (they are
assigned by the scan loops further down) that are unassigned at that point —
so the source actually crashes with `UnboundLocalError` there; each branch is
the corresponding distinct error value.  An unset goal makes the source crash
unpacking `None` into `find_next`; that crash is the distinct `TypeError`
error value. -/
def generateShifts (ratio : ℚ) (ifront irear : ℕ) :
    Except String (List (ℕ × ℕ)) :=
  if ratio ≤ 0 then .error "Invalid gear ratio"
  else if ifront ∉ frontCogs then
    .error "UnboundLocalError: local variable front referenced before assignment"
  else if irear ∉ rearCogs then
    .error "UnboundLocalError: local variable rear referenced before assignment"
  else
    match originScan ifront irear, (goalScan ratio).2 with
    | some origin, some goal =>
      if origin = goal then .ok []
      else
        let first := findNext origin goal
        match shiftLoop 8 first goal with
        | some rest => .ok (origin :: first :: rest)
        | none => .error "loop failed to terminate"
    | some _, none =>
      .error "TypeError: can only concatenate tuple (not NoneType) to tuple"
    | none, _ => .error "origin unset"

/-- Tooth counts denoted by a grid coordinate. -/
def toothOf (c : ℕ × ℕ) : ℕ × ℕ := (frontCogs.getD c.1 0, rearCogs.getD c.2 0)

/-- Two coordinates differ by exactly one unit on exactly one axis. -/
def isUnitStep (a b : ℕ × ℕ) : Prop :=
  (a.1 = b.1 ∧ (b.2 = a.2 + 1 ∨ a.2 = b.2 + 1)) ∨
  (a.2 = b.2 ∧ (b.1 = a.1 + 1 ∨ a.1 = b.1 + 1))

instance (a b : ℕ × ℕ) : Decidable (isUnitStep a b) := by
  unfold isUnitStep; infer_instance

/-- Translate an optional goal coordinate the way `compute_combo`'s
accumulator tracks it: unset becomes the sentinel combination. -/
def optTooth : Option (ℕ × ℕ) → ℕ × ℕ
  | some g => toothOf g
  | none => (0, 0)

/-- Manhattan distance between grid coordinates. -/
def manhattan (a b : ℕ × ℕ) : ℕ := Nat.dist a.1 b.1 + Nat.dist a.2 b.2

/-! ### Basic facts about the fixed grid -/

lemma indexPairs_eq :
    indexPairs = [(0,0),(0,1),(0,2),(0,3),(1,0),(1,1),(1,2),(1,3)] := by decide

lemma comboPairs_eq :
    comboPairs =
      [(38,28),(38,23),(38,19),(38,16),(30,28),(30,23),(30,19),(30,16)] := by
  decide

lemma comboPairs_map : comboPairs = indexPairs.map toothOf := by decide

lemma tableAt_vals :
    tableAt 0 0 = 38/28 ∧ tableAt 0 1 = 38/23 ∧ tableAt 0 2 = 38/19 ∧
    tableAt 0 3 = 38/16 ∧ tableAt 1 0 = 30/28 ∧ tableAt 1 1 = 30/23 ∧
    tableAt 1 2 = 30/19 ∧ tableAt 1 3 = 30/16 := by
  norm_num [tableAt, combosTable, frontCogs, rearCogs]

lemma ratioOf_toothOf :
    ∀ c ∈ indexPairs, ratioOf (toothOf c) = tableAt c.1 c.2 := by
  rw [indexPairs_eq]
  intro c hc
  fin_cases hc <;>
    norm_num [ratioOf, toothOf, tableAt, combosTable, frontCogs, rearCogs]

lemma ratioOf_inj :
    ∀ c ∈ comboPairs, ∀ c' ∈ comboPairs, ratioOf c = ratioOf c' → c = c' := by
  rw [comboPairs_eq]
  intro c hc c' hc'
  fin_cases hc <;> fin_cases hc' <;> intro h <;>
    first
    | rfl
    | (exfalso; norm_num [ratioOf] at h)

lemma table_lower_bound :
    ∀ c ∈ indexPairs, (30 : ℚ)/28 ≤ tableAt c.1 c.2 := by
  rw [indexPairs_eq]
  intro c hc
  fin_cases hc <;> norm_num [tableAt, combosTable, frontCogs, rearCogs]

/-! ### The step rule moves one unit toward the goal on exactly one axis -/

lemma stepCoord_self (c : ℕ) : stepCoord c c = c := by simp [stepCoord]

lemma findNext_step (curr fin : ℕ × ℕ) (h : curr ≠ fin) :
    isUnitStep curr (findNext curr fin) ∧
    manhattan (findNext curr fin) fin + 1 = manhattan curr fin := by
  obtain ⟨cy, cx⟩ := curr
  obtain ⟨fy, fx⟩ := fin
  have h' : cy ≠ fy ∨ cx ≠ fx := by
    by_contra hc
    push_neg at hc
    exact h (by simp [hc.1, hc.2])
  unfold findNext stepCoord manhattan isUnitStep
  dsimp only
  split_ifs <;> simp [Nat.dist] <;> omega

/-! ### The fuelled shifting loop -/

lemma shiftLoop_spec :
    ∀ (fuel : ℕ) (combo goal : ℕ × ℕ) (l : List (ℕ × ℕ)),
      shiftLoop fuel combo goal = some l →
      List.Chain' isUnitStep (combo :: l) ∧
      (combo :: l).getLast? = some goal ∧
      (combo :: l).length = manhattan combo goal + 1 ∧
      (∀ x ∈ l, manhattan x goal < manhattan combo goal) ∧
      (combo :: l).Nodup := by
  intro fuel
  induction fuel with
  | zero =>
    intro combo goal l h
    rw [shiftLoop] at h
    split_ifs at h with heq
    · obtain rfl := heq
      obtain rfl : l = [] := by simpa using h.symm
      simp [manhattan, Nat.dist]
  | succ n ih =>
    intro combo goal l h
    rw [shiftLoop] at h
    split_ifs at h with heq
    · obtain rfl := heq
      obtain rfl : l = [] := by simpa using h.symm
      simp [manhattan, Nat.dist]
    · rw [Option.map_eq_some'] at h
      obtain ⟨rest, hrest, rfl⟩ := h
      obtain ⟨hchain, hlast, hlen, hfar, hdup⟩ := ih (findNext combo goal) goal rest hrest
      obtain ⟨hstep, hdist⟩ := findNext_step combo goal heq
      refine ⟨List.chain'_cons.2 ⟨hstep, hchain⟩, ?_, ?_, ?_, ?_⟩
      · simpa using hlast
      · simp only [List.length_cons] at hlen ⊢
        omega
      · intro x hx
        rcases List.mem_cons.1 hx with rfl | hx'
        · omega
        · have := hfar x hx'
          omega
      · refine List.nodup_cons.2 ⟨?_, hdup⟩
        intro hmem
        rcases List.mem_cons.1 hmem with h1 | hmem'
        · rw [← h1] at hdist
          omega
        · have := hfar combo hmem'
          omega

/-! ### Generic facts about the running-minimum scans -/

lemma comboFold_fst_le (ratio : ℚ) :
    ∀ (l : List (ℕ × ℕ)) (acc : ℚ × (ℕ × ℕ)),
      (List.foldl (comboStep ratio) acc l).1 ≤ acc.1 := by
  intro l
  induction l with
  | nil => intro acc; simp
  | cons c l ih =>
    intro acc
    rw [List.foldl_cons]
    refine le_trans (ih (comboStep ratio acc c)) ?_
    unfold comboStep
    dsimp only
    split_ifs with hc
    · exact le_of_lt hc.2
    · exact le_rfl

lemma comboFold_min (ratio : ℚ) :
    ∀ (l : List (ℕ × ℕ)) (acc : ℚ × (ℕ × ℕ)) (c : ℕ × ℕ), c ∈ l →
      0 ≤ ratio - ratioOf c → ratio - ratioOf c < acc.1 →
      (List.foldl (comboStep ratio) acc l).1 ≤ ratio - ratioOf c := by
  intro l
  induction l with
  | nil => intro acc c hc; exact absurd hc (List.not_mem_nil c)
  | cons c0 l ih =>
    intro acc c hc h0 hlt
    rcases List.mem_cons.1 hc with rfl | hc'
    · rw [List.foldl_cons]
      refine le_trans (comboFold_fst_le ratio l _) ?_
      unfold comboStep
      dsimp only
      rw [if_pos ⟨h0, hlt⟩]
    · rw [List.foldl_cons]
      by_cases hacc : ratio - ratioOf c < (comboStep ratio acc c0).1
      · exact ih _ c hc' h0 hacc
      · push_neg at hacc
        exact le_trans (comboFold_fst_le ratio l _) hacc

lemma comboFold_result (ratio : ℚ) :
    ∀ (l : List (ℕ × ℕ)) (acc : ℚ × (ℕ × ℕ)),
      List.foldl (comboStep ratio) acc l = acc ∨
      ∃ c ∈ l, List.foldl (comboStep ratio) acc l = (ratio - ratioOf c, c) ∧
        0 ≤ ratio - ratioOf c := by
  intro l
  induction l with
  | nil => intro acc; exact Or.inl rfl
  | cons c0 l ih =>
    intro acc
    rw [List.foldl_cons]
    rcases ih (comboStep ratio acc c0) with h | ⟨c, hc, h, h0⟩
    · rw [h]
      unfold comboStep
      dsimp only
      split_ifs with hcond
      · exact Or.inr ⟨c0, List.mem_cons_self c0 l, rfl, hcond.1⟩
      · exact Or.inl rfl
    · exact Or.inr ⟨c, List.mem_cons_of_mem c0 hc, h, h0⟩

lemma comboFold_none (ratio : ℚ) :
    ∀ (l : List (ℕ × ℕ)) (acc : ℚ × (ℕ × ℕ)),
      (∀ c ∈ l, ¬(0 ≤ ratio - ratioOf c ∧ ratio - ratioOf c < acc.1)) →
      List.foldl (comboStep ratio) acc l = acc := by
  intro l
  induction l with
  | nil => intro acc _; rfl
  | cons c0 l ih =>
    intro acc hno
    rw [List.foldl_cons]
    have h0 : comboStep ratio acc c0 = acc := by
      unfold comboStep
      dsimp only
      rw [if_neg (hno c0 (List.mem_cons_self c0 l))]
    rw [h0]
    exact ih acc (fun c hc => hno c (List.mem_cons_of_mem c0 hc))

lemma goalFold_none (ratio : ℚ) :
    ∀ (l : List (ℕ × ℕ)) (acc : ℚ × Option (ℕ × ℕ)),
      (∀ c ∈ l, ¬(0 ≤ ratio - tableAt c.1 c.2 ∧ ratio - tableAt c.1 c.2 < acc.1)) →
      List.foldl (goalStep ratio) acc l = acc := by
  intro l
  induction l with
  | nil => intro acc _; rfl
  | cons c0 l ih =>
    intro acc hno
    rw [List.foldl_cons]
    have h0 : goalStep ratio acc c0 = acc := by
      unfold goalStep
      dsimp only
      rw [if_neg (hno c0 (List.mem_cons_self c0 l))]
    rw [h0]
    exact ih acc (fun c hc => hno c (List.mem_cons_of_mem c0 hc))

lemma goalFold_mem (ratio : ℚ) :
    ∀ (l : List (ℕ × ℕ)) (acc : ℚ × Option (ℕ × ℕ)) (g : ℕ × ℕ),
      (List.foldl (goalStep ratio) acc l).2 = some g →
      acc.2 = some g ∨ g ∈ l := by
  intro l
  induction l with
  | nil => intro acc g h; exact Or.inl h
  | cons c0 l ih =>
    intro acc g h
    rcases ih (goalStep ratio acc c0) g h with h' | h'
    · unfold goalStep at h'
      dsimp only at h'
      split_ifs at h' with hc
      · simp only [Option.some.injEq] at h'
        exact Or.inr (h' ▸ List.mem_cons_self c0 l)
      · exact Or.inl h'
    · exact Or.inr (List.mem_cons_of_mem c0 h')


lemma comboFold_goalFold (ratio : ℚ) :
    ∀ (l : List (ℕ × ℕ)) (md : ℚ) (g : Option (ℕ × ℕ)),
      (∀ c ∈ l, ratioOf (toothOf c) = tableAt c.1 c.2) →
      List.foldl (comboStep ratio) (md, optTooth g) (l.map toothOf) =
        ((List.foldl (goalStep ratio) (md, g) l).1,
         optTooth (List.foldl (goalStep ratio) (md, g) l).2) := by
  intro l
  induction l with
  | nil => intro md g _; rfl
  | cons c0 l ih =>
    intro md g hpt
    rw [List.map_cons, List.foldl_cons, List.foldl_cons]
    have hc0 := hpt c0 (List.mem_cons_self c0 l)
    have htail : ∀ c ∈ l, ratioOf (toothOf c) = tableAt c.1 c.2 :=
      fun c hc => hpt c (List.mem_cons_of_mem c0 hc)
    by_cases hcond : 0 ≤ ratio - tableAt c0.1 c0.2 ∧ ratio - tableAt c0.1 c0.2 < md
    · have h1 : comboStep ratio (md, optTooth g) (toothOf c0) =
          (ratio - tableAt c0.1 c0.2, optTooth (some c0)) := by
        unfold comboStep
        dsimp only
        rw [hc0, if_pos hcond]
        rfl
      have h2 : goalStep ratio (md, g) c0 = (ratio - tableAt c0.1 c0.2, some c0) := by
        unfold goalStep
        dsimp only
        rw [if_pos hcond]
      rw [h1, h2]
      exact ih (ratio - tableAt c0.1 c0.2) (some c0) htail
    · have h1 : comboStep ratio (md, optTooth g) (toothOf c0) = (md, optTooth g) := by
        unfold comboStep
        dsimp only
        rw [hc0, if_neg hcond]
      have h2 : goalStep ratio (md, g) c0 = (md, g) := by
        unfold goalStep
        dsimp only
        rw [if_neg hcond]
      rw [h1, h2]
      exact ih md g htail

/-- `compute_combo` returns exactly the tooth pair denoted by the goal
coordinate that `generate_shifts`'s scan finds (the sentinel `(0, 0)` when
that scan leaves the goal unset). -/
lemma computeCombo_eq_goalScan (ratio : ℚ) (h : 0 < ratio) :
    computeCombo ratio = .ok (optTooth (goalScan ratio).2) := by
  unfold computeCombo goalScan
  rw [if_neg (not_le.2 h), comboPairs_map]
  have := comboFold_goalFold ratio indexPairs 999999 none ratioOf_toothOf
  rw [show ((999999 : ℚ), ((0 : ℕ), (0 : ℕ))) = (999999, optTooth none) from rfl, this]

/-! ### The origin scan -/

lemma originScan_mem (f r : ℕ) (hf : f ∈ frontCogs) (hr : r ∈ rearCogs) :
    ∃ o, originScan f r = some o ∧ o ∈ indexPairs ∧ toothOf o = (f, r) := by
  simp only [frontCogs, List.mem_cons, List.not_mem_nil, or_false] at hf
  simp only [rearCogs, List.mem_cons, List.not_mem_nil, or_false] at hr
  rcases hf with rfl | rfl <;> rcases hr with rfl | rfl | rfl | rfl <;>
    first
    | exact ⟨(0,0), by decide, by decide, by decide⟩
    | exact ⟨(0,1), by decide, by decide, by decide⟩
    | exact ⟨(0,2), by decide, by decide, by decide⟩
    | exact ⟨(0,3), by decide, by decide, by decide⟩
    | exact ⟨(1,0), by decide, by decide, by decide⟩
    | exact ⟨(1,1), by decide, by decide, by decide⟩
    | exact ⟨(1,2), by decide, by decide, by decide⟩
    | exact ⟨(1,3), by decide, by decide, by decide⟩

/-! ### Inversion of `generate_shifts` -/

lemma generateShifts_ok_inv (ratio : ℚ) (f r : ℕ) (seq : List (ℕ × ℕ))
    (h : generateShifts ratio f r = .ok seq) :
    0 < ratio ∧ f ∈ frontCogs ∧ r ∈ rearCogs ∧
    ∃ origin goal, originScan f r = some origin ∧ (goalScan ratio).2 = some goal ∧
      ((origin = goal ∧ seq = []) ∨
       (origin ≠ goal ∧
        ∃ rest, shiftLoop 8 (findNext origin goal) goal = some rest ∧
          seq = origin :: findNext origin goal :: rest)) := by
  unfold generateShifts at h
  split_ifs at h with h1 h2 h3
  push_neg at h1 h2 h3
  refine ⟨h1, h2, h3, ?_⟩
  rcases ho : originScan f r with _ | origin <;> rw [ho] at h
  · exact absurd h (by simp)
  rcases hg : (goalScan ratio).2 with _ | goal <;> rw [hg] at h
  · exact absurd h (by simp)
  refine ⟨origin, goal, rfl, rfl, ?_⟩
  dsimp only at h
  split_ifs at h with heq
  · simp only [Except.ok.injEq] at h
    exact Or.inl ⟨heq, h.symm⟩
  · rcases hs : shiftLoop 8 (findNext origin goal) goal with _ | rest <;>
      rw [hs] at h
    · exact absurd h (by simp)
    · simp only [Except.ok.injEq] at h
      exact Or.inr ⟨heq, rest, rfl, h.symm⟩

lemma goalScan_mem (ratio : ℚ) (g : ℕ × ℕ) (h : (goalScan ratio).2 = some g) :
    g ∈ indexPairs := by
  rcases goalFold_mem ratio indexPairs (999999, none) g h with h' | h'
  · exact absurd h' (by simp)
  · exact h'

lemma manhattan_le_diameter (o g : ℕ × ℕ) (ho : o ∈ indexPairs)
    (hg : g ∈ indexPairs) : manhattan o g ≤ 4 := by
  rw [indexPairs_eq] at ho hg
  fin_cases ho <;> fin_cases hg <;> decide

/-! ### Claim theorems -/

/-- C5: for every valid invocation of `generate_shifts` (positive ratio,
origin tooth counts in the cog set) whose origin grid coordinate equals the
goal coordinate found by the closest-combination scan, the returned shift
sequence is empty — the degenerate no-shift case, not an error. -/
theorem plan_shifts_empty_on_origin_goal (ratio : ℚ) (f r : ℕ) (o g : ℕ × ℕ)
    (hpos : 0 < ratio) (hf : f ∈ frontCogs) (hr : r ∈ rearCogs)
    (ho : originScan f r = some o) (hg : (goalScan ratio).2 = some g)
    (heq : o = g) :
    generateShifts ratio f r = .ok [] := by
  unfold generateShifts
  rw [if_neg (not_le.2 hpos), if_neg (not_not_intro hf),
    if_neg (not_not_intro hr), ho, hg]
  dsimp only
  rw [if_pos heq]

/-- C5 witness: target ratio 3/2 from origin (38, 28): the origin coordinate
(0, 0) is already the closest match, so the sequence is empty. -/
theorem plan_shifts_empty_on_origin_goal_witness :
    (0 : ℚ) < 3/2 ∧ 38 ∈ frontCogs ∧ 28 ∈ rearCogs ∧
    originScan 38 28 = some (0, 0) ∧ ((goalScan (3/2)).2 = some (0, 0)) ∧
    generateShifts (3/2) 38 28 = .ok [] := by
  refine ⟨by norm_num, by decide, by decide, by decide, ?_, ?_⟩
  · norm_num [goalScan, goalStep, indexPairs, frontCogs, rearCogs, tableAt,
      combosTable, List.foldl, List.range, List.range.loop, -Prod.mk_one_one]
  · exact plan_shifts_empty_on_origin_goal (3/2) 38 28 (0, 0) (0, 0)
      (by norm_num) (by decide) (by decide) (by decide)
      (by norm_num [goalScan, goalStep, indexPairs, frontCogs, rearCogs,
        tableAt, combosTable, List.foldl, List.range, List.range.loop,
        -Prod.mk_one_one])
      rfl

/-- C6: every non-empty shift sequence returned by `generate_shifts` moves by
exactly one unit on exactly one axis between consecutive coordinates: no
stationary steps and no diagonal steps. -/
theorem plan_shifts_unit_steps (ratio : ℚ) (f r : ℕ) (seq : List (ℕ × ℕ))
    (h : generateShifts ratio f r = .ok seq) :
    List.Chain' isUnitStep seq := by
  obtain ⟨-, -, -, o, g, -, -, hcase⟩ := generateShifts_ok_inv ratio f r seq h
  rcases hcase with ⟨-, rfl⟩ | ⟨hne, rest, hloop, rfl⟩
  · exact List.chain'_nil
  · obtain ⟨hchain, -, -, -, -⟩ := shiftLoop_spec 8 (findNext o g) g rest hloop
    exact List.chain'_cons.2 ⟨(findNext_step o g hne).1, hchain⟩

/-- C6 witness: target ratio 19/10 from origin (38, 28) yields the sequence
(0,0), (1,0), (1,1), (1,2), (1,3), whose consecutive pairs are single-axis
unit steps. -/
theorem plan_shifts_unit_steps_witness :
    generateShifts (19/10) 38 28 = .ok [(0,0),(1,0),(1,1),(1,2),(1,3)] ∧
    List.Chain' isUnitStep [(0,0),(1,0),(1,1),(1,2),(1,3)] := by
  have hgen : generateShifts (19/10) 38 28 =
      .ok [(0,0),(1,0),(1,1),(1,2),(1,3)] := by
    norm_num [generateShifts, originScan, goalScan, goalStep, indexPairs,
      frontCogs, rearCogs, tableAt, combosTable, shiftLoop, findNext,
      stepCoord, List.foldl, List.range, List.range.loop, -Prod.mk_one_one]
  exact ⟨hgen, plan_shifts_unit_steps (19/10) 38 28 _ hgen⟩

/-- C7: a returned shift sequence contains at most Manhattan-distance(origin,
goal) applications of the step rule (its length is at most that distance plus
the leading origin entry), and it never revisits a coordinate. -/
theorem plan_shifts_walk_terminates (ratio : ℚ) (f r : ℕ)
    (seq : List (ℕ × ℕ)) (o g : ℕ × ℕ)
    (h : generateShifts ratio f r = .ok seq)
    (ho : originScan f r = some o) (hg : (goalScan ratio).2 = some g) :
    seq.length ≤ manhattan o g + 1 ∧ seq.Nodup := by
  obtain ⟨-, -, -, o', g', ho', hg', hcase⟩ := generateShifts_ok_inv ratio f r seq h
  obtain rfl : o = o' := by rw [ho] at ho'; exact (Option.some.injEq _ _ ▸ ho')
  obtain rfl : g = g' := by rw [hg] at hg'; exact (Option.some.injEq _ _ ▸ hg')
  rcases hcase with ⟨-, rfl⟩ | ⟨hne, rest, hloop, rfl⟩
  · exact ⟨by simp, List.nodup_nil⟩
  · obtain ⟨-, -, hlen, hfar, hdup⟩ := shiftLoop_spec 8 (findNext o g) g rest hloop
    have hdist := (findNext_step o g hne).2
    constructor
    · simp only [List.length_cons] at hlen ⊢
      omega
    · refine List.nodup_cons.2 ⟨?_, hdup⟩
      intro hmem
      rcases List.mem_cons.1 hmem with h1 | hmem'
      · rw [← h1] at hdist
        omega
      · have := hfar o hmem'
        omega

/-- C7 witness: for target ratio 19/10 from origin (38, 28) the origin is
(0, 0), the goal is (1, 3), and the returned 5-entry sequence stays within
the Manhattan bound 4 + 1 and has no repeated coordinate. -/
theorem plan_shifts_walk_terminates_witness :
    generateShifts (19/10) 38 28 = .ok [(0,0),(1,0),(1,1),(1,2),(1,3)] ∧
    originScan 38 28 = some (0, 0) ∧ (goalScan (19/10)).2 = some (1, 3) ∧
    ([((0:ℕ),(0:ℕ)),(1,0),(1,1),(1,2),(1,3)].length ≤
      manhattan (0, 0) (1, 3) + 1 ∧
     [((0:ℕ),(0:ℕ)),(1,0),(1,1),(1,2),(1,3)].Nodup) := by
  have hgen : generateShifts (19/10) 38 28 =
      .ok [(0,0),(1,0),(1,1),(1,2),(1,3)] := by
    norm_num [generateShifts, originScan, goalScan, goalStep, indexPairs,
      frontCogs, rearCogs, tableAt, combosTable, shiftLoop, findNext,
      stepCoord, List.foldl, List.range, List.range.loop, -Prod.mk_one_one]
  have hg : (goalScan (19/10)).2 = some (1, 3) := by
    norm_num [goalScan, goalStep, indexPairs, frontCogs, rearCogs, tableAt,
      combosTable, List.foldl, List.range, List.range.loop, -Prod.mk_one_one]
  exact ⟨hgen, by decide, hg,
    plan_shifts_walk_terminates (19/10) 38 28 _ (0, 0) (1, 3) hgen (by decide) hg⟩

/-- C8 (code bug): the non-positive-ratio check does raise the documented
invalid-ratio error before any search begins, in `generate_shifts` as in
`compute_combo`; but for origin tooth counts outside the cog set the source
crashes with `UnboundLocalError` while formatting its message (shiftseq.py
lines 119/121 read `front` / `rear`, locals of the scan loops further down,
unassigned at that point), so the documented invalid-origin errors are never
produced.  Evaluated at the failing inputs: ratio 2 with front gear 40, and
ratio 2 with rear gear 40. -/
theorem validation_errors_actual :
    generateShifts (-1) 38 28 = .error "Invalid gear ratio" ∧
    computeCombo (-1) = .error "Invalid gear ratio" ∧
    generateShifts 2 40 28 =
      .error "UnboundLocalError: local variable front referenced before assignment" ∧
    generateShifts 2 38 40 =
      .error "UnboundLocalError: local variable rear referenced before assignment" ∧
    generateShifts 2 40 28 ≠ .error "Invalid front gear" ∧
    generateShifts 2 38 40 ≠ .error "Invalid rear gear" := by
  have h1 : generateShifts 2 40 28 =
      .error "UnboundLocalError: local variable front referenced before assignment" := by
    unfold generateShifts
    rw [if_neg (by norm_num), if_pos (by decide)]
  have h2 : generateShifts 2 38 40 =
      .error "UnboundLocalError: local variable rear referenced before assignment" := by
    unfold generateShifts
    rw [if_neg (by norm_num), if_neg (by decide), if_pos (by decide)]
  refine ⟨?_, ?_, h1, h2, ?_, ?_⟩
  · unfold generateShifts
    rw [if_pos (by norm_num)]
  · unfold computeCombo
    rw [if_pos (by norm_num)]
  · rw [h1]
    simp
  · rw [h2]
    simp

/-- C3 counterexample: the valid invocation with target ratio 15/8 from
origin (38, 28) (15/8 is positive, both tooth counts are cogs, and the ratio
30/16 = 15/8 is achievable) returns a sequence of length 5, exceeding
(F-1) + (R-1) = 4: the claimed bound omits the leading origin entry. -/
theorem plan_shifts_length_counterexample :
    (0 : ℚ) < 15/8 ∧ 38 ∈ frontCogs ∧ 28 ∈ rearCogs ∧
    ((30 : ℚ)/16 ≤ 15/8) ∧
    generateShifts (15/8) 38 28 = .ok [(0,0),(1,0),(1,1),(1,2),(1,3)] ∧
    ¬([((0:ℕ),(0:ℕ)),(1,0),(1,1),(1,2),(1,3)].length ≤
        (frontCogs.length - 1) + (rearCogs.length - 1)) := by
  refine ⟨by norm_num, by decide, by decide, by norm_num, ?_, by decide⟩
  norm_num [generateShifts, originScan, goalScan, goalStep, indexPairs,
    frontCogs, rearCogs, tableAt, combosTable, shiftLoop, findNext,
    stepCoord, List.foldl, List.range, List.range.loop, -Prod.mk_one_one]

/-- C3 amended: for every valid invocation of `plan_shifts`, the length of
the returned shift sequence is at most (F-1) + (R-1) + 1: the sequence makes
at most (F-1) + (R-1) shift steps, plus the leading origin entry. -/
theorem plan_shifts_length_bound (ratio : ℚ) (f r : ℕ) (seq : List (ℕ × ℕ))
    (h : generateShifts ratio f r = .ok seq) :
    seq.length ≤ (frontCogs.length - 1) + (rearCogs.length - 1) + 1 := by
  obtain ⟨-, hf, hr, o, g, ho, hg, hcase⟩ := generateShifts_ok_inv ratio f r seq h
  have hom : o ∈ indexPairs := by
    obtain ⟨o', ho', hmem, -⟩ := originScan_mem f r hf hr
    rw [ho] at ho'
    exact (Option.some.injEq _ _ ▸ ho') ▸ hmem
  have hgm : g ∈ indexPairs := goalScan_mem ratio g hg
  have hman : manhattan o g ≤ 4 := manhattan_le_diameter o g hom hgm
  have hlen5 : seq.length ≤ 5 := by
    rcases hcase with ⟨-, rfl⟩ | ⟨hne, rest, hloop, rfl⟩
    · simp
    · obtain ⟨-, -, hlen, -, -⟩ := shiftLoop_spec 8 (findNext o g) g rest hloop
      have hdist := (findNext_step o g hne).2
      simp only [List.length_cons] at hlen ⊢
      omega
  simpa [frontCogs, rearCogs] using hlen5

/-- C3 amended witness: the 15/8 invocation returns a sequence of length 5 =
(2-1) + (4-1) + 1. -/
theorem plan_shifts_length_bound_witness :
    generateShifts (15/8) 38 28 = .ok [(0,0),(1,0),(1,1),(1,2),(1,3)] ∧
    [((0:ℕ),(0:ℕ)),(1,0),(1,1),(1,2),(1,3)].length ≤
      (frontCogs.length - 1) + (rearCogs.length - 1) + 1 := by
  have hgen : generateShifts (15/8) 38 28 =
      .ok [(0,0),(1,0),(1,1),(1,2),(1,3)] := by
    norm_num [generateShifts, originScan, goalScan, goalStep, indexPairs,
      frontCogs, rearCogs, tableAt, combosTable, shiftLoop, findNext,
      stepCoord, List.foldl, List.range, List.range.loop, -Prod.mk_one_one]
  exact ⟨hgen, plan_shifts_length_bound (15/8) 38 28 _ hgen⟩

/-- C10: for a positive target ratio strictly below the smallest achievable
ratio 30/28 and a valid origin, the goal scan accepts no candidate (the goal
stays unset) and `generate_shifts` neither returns a sequence nor raises
either documented invalid-input error: stepping toward the unset goal aborts
with the distinct `TypeError` failure. -/
theorem below_minimum_ratio_crash (ratio : ℚ) (f r : ℕ)
    (hpos : 0 < ratio) (hlt : ratio < 30/28)
    (hf : f ∈ frontCogs) (hr : r ∈ rearCogs) :
    (goalScan ratio).2 = none ∧
    generateShifts ratio f r =
      .error "TypeError: can only concatenate tuple (not NoneType) to tuple" ∧
    generateShifts ratio f r ≠ .error "Invalid gear ratio" ∧
    generateShifts ratio f r ≠ .error "Invalid front gear" ∧
    generateShifts ratio f r ≠ .error "Invalid rear gear" := by
  have hnone : (goalScan ratio).2 = none := by
    unfold goalScan
    rw [goalFold_none ratio indexPairs (999999, none) ?_]
    intro c hc
    rintro ⟨hge, -⟩
    have := table_lower_bound c hc
    linarith
  obtain ⟨o, ho, -, -⟩ := originScan_mem f r hf hr
  have hgen : generateShifts ratio f r =
      .error "TypeError: can only concatenate tuple (not NoneType) to tuple" := by
    unfold generateShifts
    rw [if_neg (not_le.2 hpos), if_neg (not_not_intro hf),
      if_neg (not_not_intro hr), ho, hnone]
  refine ⟨hnone, hgen, ?_, ?_, ?_⟩ <;> rw [hgen] <;> simp

/-- C10 witness: ratio 1 (positive, below 30/28) from origin (38, 28): the
goal stays unset and the call fails with the TypeError, not with either
documented invalid-input error. -/
theorem below_minimum_ratio_crash_witness :
    (0 : ℚ) < 1 ∧ (1 : ℚ) < 30/28 ∧ 38 ∈ frontCogs ∧ 28 ∈ rearCogs ∧
    ((goalScan 1).2 = none ∧
     generateShifts 1 38 28 =
       .error "TypeError: can only concatenate tuple (not NoneType) to tuple" ∧
     generateShifts 1 38 28 ≠ .error "Invalid gear ratio" ∧
     generateShifts 1 38 28 ≠ .error "Invalid front gear" ∧
     generateShifts 1 38 28 ≠ .error "Invalid rear gear") :=
  ⟨by norm_num, by norm_num, by decide, by decide,
   below_minimum_ratio_crash 1 38 28 (by norm_num) (by norm_num)
     (by decide) (by decide)⟩

/-- C1: when both axes want to move (current differs from goal on the front
and on the rear index), `find_next` compares the ratio of a rear-axis-only
move (`table[current_f][next_r]`) with that of a front-axis-only move
(`table[next_f][current_r]`) and takes the move with the smaller resulting
ratio; on exact equality the rear-axis move is taken (for the fixed cog set
no two such ratios are ever equal at in-range coordinates, so the equality
clause is vacuous and the front move happens exactly when its ratio is
strictly smaller). -/
theorem find_next_prefers_smaller_ratio :
    ∀ cy, cy < frontCogs.length → ∀ cx, cx < rearCogs.length →
    ∀ fy, fy < frontCogs.length → ∀ fx, fx < rearCogs.length →
    cy ≠ fy → cx ≠ fx →
    (tableAt cy (stepCoord cx fx) < tableAt (stepCoord cy fy) cx →
      findNext (cy, cx) (fy, fx) = (cy, stepCoord cx fx)) ∧
    (tableAt (stepCoord cy fy) cx < tableAt cy (stepCoord cx fx) →
      findNext (cy, cx) (fy, fx) = (stepCoord cy fy, cx)) ∧
    (tableAt cy (stepCoord cx fx) = tableAt (stepCoord cy fy) cx →
      findNext (cy, cx) (fy, fx) = (cy, stepCoord cx fx)) := by
  intro cy hcy cx hcx fy hfy fx hfx hy hx
  simp only [frontCogs, rearCogs, List.length_cons, List.length_nil] at hcy hcx hfy hfx
  interval_cases cy <;> interval_cases cx <;> interval_cases fy <;>
    interval_cases fx <;>
    first
    | (exact absurd rfl hy)
    | (exact absurd rfl hx)
    | (norm_num [findNext, stepCoord, tableAt, combosTable, frontCogs, rearCogs])

/-- C1 witness: from (0, 0) toward (1, 3) both axes want to move; the
front-axis ratio 30/28 is smaller than the rear-axis ratio 38/23, so the
front-axis move (1, 0) is taken. -/
theorem find_next_prefers_smaller_ratio_witness :
    ((0:ℕ) < frontCogs.length ∧ (0:ℕ) < rearCogs.length ∧
     (1:ℕ) < frontCogs.length ∧ (3:ℕ) < rearCogs.length ∧
     (0:ℕ) ≠ 1 ∧ (0:ℕ) ≠ 3) ∧
    ((tableAt 0 (stepCoord 0 3) < tableAt (stepCoord 0 1) 0 →
       findNext (0, 0) (1, 3) = (0, stepCoord 0 3)) ∧
     (tableAt (stepCoord 0 1) 0 < tableAt 0 (stepCoord 0 3) →
       findNext (0, 0) (1, 3) = (stepCoord 0 1, 0)) ∧
     (tableAt 0 (stepCoord 0 3) = tableAt (stepCoord 0 1) 0 →
       findNext (0, 0) (1, 3) = (0, stepCoord 0 3))) :=
  ⟨⟨by decide, by decide, by decide, by decide, by decide, by decide⟩,
   find_next_prefers_smaller_ratio 0 (by decide) 0 (by decide) 1 (by decide)
     3 (by decide) (by decide) (by decide)⟩

/-- C9: for in-range current and goal coordinates differing on both axes,
the two single-axis candidates consulted in the ratio table are in range
(so `_combos[curr_y][next_x]` and `_combos[next_y][curr_x]` never index out
of bounds) and the coordinate returned by `find_next` is in range. -/
theorem find_next_stays_in_range :
    ∀ cy, cy < frontCogs.length → ∀ cx, cx < rearCogs.length →
    ∀ fy, fy < frontCogs.length → ∀ fx, fx < rearCogs.length →
    cy ≠ fy → cx ≠ fx →
    stepCoord cy fy < frontCogs.length ∧ stepCoord cx fx < rearCogs.length ∧
    (findNext (cy, cx) (fy, fx)).1 < frontCogs.length ∧
    (findNext (cy, cx) (fy, fx)).2 < rearCogs.length := by
  intro cy hcy cx hcx fy hfy fx hfx hy hx
  simp only [frontCogs, rearCogs, List.length_cons, List.length_nil] at *
  unfold findNext stepCoord
  dsimp only
  split_ifs <;> simp_all <;> omega

/-- C9 witness: from (1, 3) toward (0, 0) both candidate indexes and the
returned coordinate are inside the 2-by-4 grid. -/
theorem find_next_stays_in_range_witness :
    ((1:ℕ) < frontCogs.length ∧ (3:ℕ) < rearCogs.length ∧
     (0:ℕ) < frontCogs.length ∧ (0:ℕ) < rearCogs.length ∧
     (1:ℕ) ≠ 0 ∧ (3:ℕ) ≠ 0) ∧
    (stepCoord 1 0 < frontCogs.length ∧ stepCoord 3 0 < rearCogs.length ∧
     (findNext (1, 3) (0, 0)).1 < frontCogs.length ∧
     (findNext (1, 3) (0, 0)).2 < rearCogs.length) :=
  ⟨⟨by decide, by decide, by decide, by decide, by decide, by decide⟩,
   find_next_stays_in_range 1 (by decide) 3 (by decide) 0 (by decide)
     0 (by decide) (by decide) (by decide)⟩

/-- C4: whenever `generate_shifts` returns a non-empty sequence (so a goal
was found), mapping the sequence's final coordinate through the cog lists
yields exactly the tooth pair `compute_combo` returns for the same target
ratio. -/
theorem plan_shifts_final_matches_compute_combo (ratio : ℚ) (f r : ℕ)
    (seq : List (ℕ × ℕ)) (h : generateShifts ratio f r = .ok seq)
    (hne : seq ≠ []) :
    ∃ g, seq.getLast? = some g ∧ computeCombo ratio = .ok (toothOf g) := by
  obtain ⟨hpos, -, -, o, g, ho, hg, hcase⟩ := generateShifts_ok_inv ratio f r seq h
  have hcc := computeCombo_eq_goalScan ratio hpos
  rw [hg] at hcc
  simp only [optTooth] at hcc
  rcases hcase with ⟨-, rfl⟩ | ⟨hne', rest, hloop, rfl⟩
  · exact absurd rfl hne
  · obtain ⟨-, hlast, -, -, -⟩ := shiftLoop_spec 8 (findNext o g) g rest hloop
    refine ⟨g, ?_, hcc⟩
    rw [List.getLast?_cons_cons]
    exact hlast

/-- C4 witness: for target ratio 19/10 from (38, 28) the sequence ends at
coordinate (1, 3), whose tooth pair (30, 16) is exactly what `compute_combo`
returns for 19/10. -/
theorem plan_shifts_final_matches_compute_combo_witness :
    generateShifts (19/10) 38 28 = .ok [(0,0),(1,0),(1,1),(1,2),(1,3)] ∧
    ([((0:ℕ),(0:ℕ)),(1,0),(1,1),(1,2),(1,3)] ≠ []) ∧
    (∃ g, [((0:ℕ),(0:ℕ)),(1,0),(1,1),(1,2),(1,3)].getLast? = some g ∧
      computeCombo (19/10) = .ok (toothOf g)) := by
  have hgen : generateShifts (19/10) 38 28 =
      .ok [(0,0),(1,0),(1,1),(1,2),(1,3)] := by
    norm_num [generateShifts, originScan, goalScan, goalStep, indexPairs,
      frontCogs, rearCogs, tableAt, combosTable, shiftLoop, findNext,
      stepCoord, List.foldl, List.range, List.range.loop, -Prod.mk_one_one]
  exact ⟨hgen, by decide,
    plan_shifts_final_matches_compute_combo (19/10) 38 28 _ hgen (by decide)⟩

/-- C2 counterexample: at the valid target ratio 2000000 some achievable
ratios do not exceed the target (38/28 ≤ 2000000), yet `compute_combo`
returns the zero-initialised sentinel (0, 0) — not a combination of the cog
set — because every delta is at least the initial sentinel minimum 999999.
The claimed behaviour (sentinel only when every achievable ratio strictly
exceeds the target) is therefore false as stated. -/
theorem compute_combo_closest_counterexample :
    (0 : ℚ) < 2000000 ∧ ((38 : ℚ)/28 ≤ 2000000) ∧ (38, 28) ∈ comboPairs ∧
    computeCombo 2000000 = .ok (0, 0) ∧ (0, 0) ∉ comboPairs := by
  refine ⟨by norm_num, by norm_num, by decide, ?_, by decide⟩
  norm_num [computeCombo, comboPairs, comboStep, ratioOf, frontCogs,
    rearCogs, List.foldl, -Prod.mk_zero_zero]

/-- C2 amended: for every target ratio > 0, if some combination's ratio is at
most the target and within 999999 of it (the sentinel initial minimum), the
search returns a combination of the cog set whose ratio does not exceed the
target and whose delta is minimal among all such combinations — and the
minimiser is unique, so the first-found tie-break is vacuous; otherwise
(every achievable ratio strictly exceeds the target, or the target is so
large that every delta reaches the sentinel 999999) the zero-initialised
sentinel combination (0, 0) is returned. -/
theorem compute_combo_closest (ratio : ℚ) (hpos : 0 < ratio) :
    ((∃ c ∈ comboPairs, ratioOf c ≤ ratio ∧ ratio - ratioOf c < 999999) →
      ∃ c, computeCombo ratio = .ok c ∧ c ∈ comboPairs ∧ ratioOf c ≤ ratio ∧
        (∀ c' ∈ comboPairs, ratioOf c' ≤ ratio →
          ratio - ratioOf c ≤ ratio - ratioOf c') ∧
        (∀ c' ∈ comboPairs, ratioOf c' ≤ ratio →
          ratio - ratioOf c' = ratio - ratioOf c → c' = c)) ∧
    ((∀ c ∈ comboPairs, ¬(ratioOf c ≤ ratio ∧ ratio - ratioOf c < 999999)) →
      computeCombo ratio = .ok (0, 0)) := by
  constructor
  · rintro ⟨c0, hc0, hle0, hlt0⟩
    have hok : computeCombo ratio =
        .ok (comboPairs.foldl (comboStep ratio) (999999, (0, 0))).2 := by
      unfold computeCombo
      rw [if_neg (not_le.2 hpos)]
    have hmin0 : (comboPairs.foldl (comboStep ratio) (999999, (0, 0))).1 ≤
        ratio - ratioOf c0 :=
      comboFold_min ratio comboPairs (999999, (0, 0)) c0 hc0
        (sub_nonneg.2 hle0) hlt0
    rcases comboFold_result ratio comboPairs (999999, (0, 0)) with heq |
      ⟨c, hc, heqr, h0c⟩
    · rw [heq] at hmin0
      exfalso
      dsimp only at hmin0
      linarith
    · have hsnd : (comboPairs.foldl (comboStep ratio) (999999, (0, 0))).2 = c := by
        rw [heqr]
      have hfst : (comboPairs.foldl (comboStep ratio) (999999, (0, 0))).1 =
          ratio - ratioOf c := by
        rw [heqr]
      refine ⟨c, by rw [hok, hsnd], hc, sub_nonneg.1 h0c, ?_, ?_⟩
      · intro c' hc' hle'
        by_cases hsmall : ratio - ratioOf c' < 999999
        · have := comboFold_min ratio comboPairs (999999, (0, 0)) c' hc'
            (sub_nonneg.2 hle') hsmall
          rw [hfst] at this
          linarith
        · push_neg at hsmall
          have hle := comboFold_fst_le ratio comboPairs (999999, (0, 0))
          rw [hfst] at hle
          dsimp only at hle
          linarith
      · intro c' hc' hle' heqd
        have : ratioOf c' = ratioOf c := by linarith
        exact ratioOf_inj c' hc' c hc this
  · intro hnone
    unfold computeCombo
    rw [if_neg (not_le.2 hpos),
      comboFold_none ratio comboPairs (999999, (0, 0)) ?_]
    intro c hc
    rintro ⟨ha, hb⟩
    exact hnone c hc ⟨sub_nonneg.1 ha, by simpa using hb⟩

/-- C2 amended witness: the theorem applied at the concrete target ratio
3/2, which is positive. -/
theorem compute_combo_closest_witness :
    (0 : ℚ) < 3/2 ∧
    (((∃ c ∈ comboPairs, ratioOf c ≤ 3/2 ∧ (3/2 : ℚ) - ratioOf c < 999999) →
      ∃ c, computeCombo (3/2) = .ok c ∧ c ∈ comboPairs ∧ ratioOf c ≤ 3/2 ∧
        (∀ c' ∈ comboPairs, ratioOf c' ≤ 3/2 →
          (3/2 : ℚ) - ratioOf c ≤ 3/2 - ratioOf c') ∧
        (∀ c' ∈ comboPairs, ratioOf c' ≤ 3/2 →
          (3/2 : ℚ) - ratioOf c' = 3/2 - ratioOf c → c' = c)) ∧
    ((∀ c ∈ comboPairs, ¬(ratioOf c ≤ 3/2 ∧ (3/2 : ℚ) - ratioOf c < 999999)) →
      computeCombo (3/2) = .ok (0, 0))) :=
  ⟨by norm_num, compute_combo_closest (3/2) (by norm_num)⟩
